import Mathlib

/-!
Shallow embedding of the invitation-validation and claims-issuance core of
`functions/src/index.ts`: the blocking hooks `checkInviteOnCreate`
(beforeUserCreated) and `validateOnSignIn` (beforeUserSignedIn), and the
post-creation trigger `onUserCreated` (v1 auth onCreate).

The Firestore document database is modelled as a `Store` with the three
collections the code touches (`users`, `invites`, `orgs`), each a list of
documents in document order; an equality-only query with `limit(1)` followed
by `docs[0]` is `List.find?` over that order, while a query with a range
filter follows Firestore's implicit ordering by the range field (then by
document id), so it yields the match minimising that field.  Times (`Date`, `Timestamp`,
`serverTimestamp`) are naturals.  JavaScript truthiness of an optional string
field (`!email`, `userData.role && userData.orgId`, `displayName || ""`) is
made explicit through `optTruthy` / `Option.getD ""`.  A Firestore write
batch commits atomically: all staged writes apply, or (e.g. when an `update`
targets a missing document, or the commit never runs) none do — this is
`commitBatch`.
-/

namespace FirebaseAuthApp

/-- JavaScript truthiness of an optional string: `undefined` and `""` are
falsy, every other string is truthy. -/
def optTruthy : Option String → Bool
  | none => false
  | some s => !s.isEmpty

/-- A document in the `users` collection (fields written by the materializer
and by the bootstrap script; `orgId` is null only for the superAdmin). -/
structure UserDoc where
  email : String
  displayName : String
  photoURL : String
  orgId : Option String
  role : Option String
  createdAt : Nat
  updatedAt : Nat
  deriving DecidableEq, Repr

/-- A document in the `invites` collection; `id` is its Firestore document
id (the `ref` the code updates). -/
structure InviteDoc where
  id : String
  email : String
  orgId : String
  role : String
  status : String
  createdAt : Nat
  expiresAt : Nat
  deriving DecidableEq, Repr

/-- A document in the `orgs` collection (only `memberCount` is touched by
this core). -/
structure OrgDoc where
  memberCount : Nat
  deriving DecidableEq, Repr

/-- The Firestore state seen by the hooks: the three collections, each in
document order.  `users` and `orgs` are keyed by document id. -/
structure Store where
  users : List (String × UserDoc)
  invites : List InviteDoc
  orgs : List (String × OrgDoc)
  deriving DecidableEq, Repr

/-- An `HttpsError` thrown by a blocking function: its code and message. -/
structure HError where
  code : String
  message : String
  deriving DecidableEq, Repr

/-- The custom-claims payload a blocking function returns:
`{ superAdmin: true }`, `{ role, orgId }`, or the empty object `{}`. -/
inductive Claims where
  | superAdminClaims
  | memberClaims (role : String) (orgId : String)
  | emptyClaims
  deriving DecidableEq, Repr

deriving instance DecidableEq for Except

/-- Point lookup `db.collection("users").doc(uid).get()`. -/
def lookupUser (st : Store) (uid : String) : Option UserDoc :=
  (st.users.find? (fun p => p.1 == uid)).map (fun p => p.2)

/-- Non-emptiness of the query
`users.where("email","==",email).where("role","==","superAdmin").limit(1)`. -/
def hasSuperAdminUser (st : Store) (email : String) : Bool :=
  st.users.any (fun p => p.2.email == email && p.2.role == some "superAdmin")

/-- One step of the range-query result selection: keep the invite with the
smaller `expiresAt`, preferring the earlier document on ties. -/
def minExpStep (acc : Option InviteDoc) (i : InviteDoc) : Option InviteDoc :=
  match acc with
  | none => some i
  | some j => if i.expiresAt < j.expiresAt then some i else acc

/-- Among a list of invite documents (in document order), the one with the
smallest `expiresAt`, ties resolved in favour of the earlier document. -/
def minExpInvite (l : List InviteDoc) : Option InviteDoc :=
  l.foldl minExpStep none

/-- First result of the query
`invites.where("email","==",email).where("status","==","pending")
.where("expiresAt",">",new Date()).limit(1)` run at time `now`.  Firestore
implicitly orders the results of a range-filtered query by the range field
(`expiresAt`) ascending, then by document id, so `limit(1)` followed by
`docs[0]` yields the matching invite with the smallest `expiresAt`
(document order on ties). -/
def pendingUnexpiredInvite (now : Nat) (email : String) (st : Store) :
    Option InviteDoc :=
  minExpInvite (st.invites.filter (fun i =>
    i.email == email && i.status == "pending" && decide (now < i.expiresAt)))

/-- First result of the query
`invites.where("email","==",email).where("status","==","pending").limit(1)`
(no expiry condition). -/
def pendingInvite (email : String) (st : Store) : Option InviteDoc :=
  st.invites.find? (fun i => i.email == email && i.status == "pending")

/-- The `checkInviteOnCreate` blocking function (beforeUserCreated), run at
time `now` with the event's optional email.  Returns the thrown error or the
returned claims, paired with the (unchanged) store. -/
def checkInviteOnCreate (now : Nat) (email : Option String) (st : Store) :
    Except HError Claims × Store :=
  if !(optTruthy email) then
    (.error ⟨"invalid-argument", "Email is required."⟩, st)
  else
    let e := email.getD ""
    if hasSuperAdminUser st e then
      (.ok .superAdminClaims, st)
    else
      match pendingUnexpiredInvite now e st with
      | none =>
          (.error ⟨"permission-denied",
            "No valid invitation found for this email."⟩, st)
      | some inv => (.ok (.memberClaims inv.role inv.orgId), st)

/-- The `validateOnSignIn` blocking function (beforeUserSignedIn), with the
event's optional uid and email.  Returns the thrown error or the returned
claims, paired with the (unchanged) store. -/
def validateOnSignIn (uid email : Option String) (st : Store) :
    Except HError Claims × Store :=
  if !(optTruthy uid && optTruthy email) then
    (.error ⟨"invalid-argument", "Email is required."⟩, st)
  else
    match lookupUser st (uid.getD "") with
    | some userData =>
        if userData.role == some "superAdmin" then
          (.ok .superAdminClaims, st)
        else if optTruthy userData.role && optTruthy userData.orgId then
          (.ok (.memberClaims (userData.role.getD "") (userData.orgId.getD "")),
            st)
        else
          (.error ⟨"permission-denied",
            "Your account has been deactivated. Contact an administrator."⟩,
            st)
    | none => (.ok .emptyClaims, st)

/-- The `UserRecord` the v1 auth trigger receives. -/
structure AuthUserRecord where
  uid : String
  email : Option String
  displayName : Option String
  photoURL : Option String
  deriving DecidableEq, Repr

/-- One staged write in a Firestore batch, as used by `onUserCreated`:
`batch.set` of a user document, `batch.update` of an invite's status, or
`batch.update` with `FieldValue.increment(1)` on an org's memberCount. -/
inductive WriteOp where
  | setUser (uid : String) (doc : UserDoc)
  | updateInviteStatus (id : String) (status : String)
  | incrementOrgMemberCount (orgId : String)
  deriving DecidableEq, Repr

/-- Effect of a single write on the store.  `set` creates or overwrites the
document; the two `update`s modify the matching document in place. -/
def applyWrite (st : Store) : WriteOp → Store
  | .setUser uid doc =>
      { st with users :=
          if st.users.any (fun p => p.1 == uid) then
            st.users.map (fun p => if p.1 == uid then (uid, doc) else p)
          else
            st.users ++ [(uid, doc)] }
  | .updateInviteStatus id status =>
      { st with invites :=
          st.invites.map (fun i =>
            if i.id == id then { i with status := status } else i) }
  | .incrementOrgMemberCount orgId =>
      { st with orgs :=
          st.orgs.map (fun p =>
            if p.1 == orgId then (p.1, ⟨p.2.memberCount + 1⟩) else p) }

/-- Firestore precondition of a staged write: `set` always succeeds, an
`update` requires the target document to exist. -/
def writeOk (st : Store) : WriteOp → Bool
  | .setUser _ _ => true
  | .updateInviteStatus id _ => st.invites.any (fun i => i.id == id)
  | .incrementOrgMemberCount orgId => st.orgs.any (fun p => p.1 == orgId)

/-- Atomic commit of a batch: if every staged write is valid all of them
apply in order; otherwise the commit fails and the store is untouched. -/
def commitBatch (st : Store) (ops : List WriteOp) : Store :=
  if ops.all (writeOk st) then ops.foldl applyWrite st else st

/-- The user document `onUserCreated` stages for identity `rec` with email
`e` and invite `inv` at server time `now` (the `batch.set` payload):
`displayName || ""`, `photoURL || ""`, `orgId` and `role` from the invite,
server timestamps. -/
def newUserDoc (now : Nat) (rec : AuthUserRecord) (e : String)
    (inv : InviteDoc) : UserDoc :=
  { email := e
  , displayName := rec.displayName.getD ""
  , photoURL := rec.photoURL.getD ""
  , orgId := some inv.orgId
  , role := some inv.role
  , createdAt := now
  , updatedAt := now }

/-- The three writes `onUserCreated` stages for identity `rec` (email `e`)
consuming invite `inv` at server time `now`: create the user document, mark
the invite accepted, increment the org's memberCount. -/
def materializeOps (now : Nat) (rec : AuthUserRecord) (e : String)
    (inv : InviteDoc) : List WriteOp :=
  [ .setUser rec.uid (newUserDoc now rec e inv)
  , .updateInviteStatus inv.id "accepted"
  , .incrementOrgMemberCount inv.orgId ]

/-- The `onUserCreated` trigger with an injected fault: when `fault` is true
the invocation dies after staging the writes but before `batch.commit()`
runs, so the commit never happens.  `now` is the server timestamp. -/
def onUserCreatedWithFault (fault : Bool) (now : Nat) (rec : AuthUserRecord)
    (st : Store) : Store :=
  if !(optTruthy rec.email) then st
  else
    let e := rec.email.getD ""
    if (lookupUser st rec.uid).isSome then st
    else
      match pendingInvite e st with
      | none => st
      | some inv =>
          if fault then st else commitBatch st (materializeOps now rec e inv)

/-- The `onUserCreated` v1 auth trigger (fault-free run). -/
def onUserCreated (now : Nat) (rec : AuthUserRecord) (st : Store) : Store :=
  onUserCreatedWithFault false now rec st

/-- Status of the invite with document id `id`. -/
def getInviteStatus (st : Store) (id : String) : Option String :=
  (st.invites.find? (fun i => i.id == id)).map (fun i => i.status)

/-- memberCount of the org with document id `orgId`. -/
def getOrgMemberCount (st : Store) (orgId : String) : Option Nat :=
  (st.orgs.find? (fun p => p.1 == orgId)).map (fun p => p.2.memberCount)

/-! ### List-level helper lemmas -/

/-- If filtering by `p` leaves exactly `[a]`, then filtering with any
predicate `q` that is at most as permissive as `p` and holds at `a` also
leaves exactly `[a]`. -/
theorem filter_of_filter_singleton {α : Type _} {p q : α → Bool}
    (hpq : ∀ x, q x = true → p x = true) :
    ∀ (l : List α) (a : α), l.filter p = [a] → q a = true →
      l.filter q = [a]
  | [], a, hf, _ => by simp at hf
  | x :: t, a, hf, hqa => by
      cases hx : p x with
      | true =>
          simp only [List.filter_cons, hx, if_true] at hf
          injection hf with h1 h2
          subst h1
          have ht : t.filter q = [] := by
            rw [List.filter_eq_nil_iff] at h2 ⊢
            intro i hi hqi
            exact h2 i hi (hpq i hqi)
          simp [List.filter_cons, hqa, ht]
      | false =>
          have hqx : q x = false := by
            cases hq : q x with
            | true => exact absurd (hpq x hq) (by simp [hx])
            | false => rfl
          simp only [List.filter_cons, hx, Bool.false_eq_true, if_false] at hf
          simp only [List.filter_cons, hqx, Bool.false_eq_true, if_false]
          exact filter_of_filter_singleton hpq t a hf hqa

/-- Folding `minExpStep` from a seed invite yields either the seed or a list
member, no later than the seed and than every member in `expiresAt`. -/
theorem minExpStep_foldl_spec :
    ∀ (l : List InviteDoc) (acc x : InviteDoc),
      l.foldl minExpStep (some acc) = some x →
      (x = acc ∨ x ∈ l) ∧ x.expiresAt ≤ acc.expiresAt
        ∧ ∀ i ∈ l, x.expiresAt ≤ i.expiresAt
  | [], acc, x, h => by
      injection h with h'
      subst h'
      exact ⟨Or.inl rfl, Nat.le_refl _, by simp⟩
  | a :: t, acc, x, h => by
      rw [List.foldl_cons] at h
      show _ ∧ _ ∧ ∀ i ∈ a :: t, x.expiresAt ≤ i.expiresAt
      by_cases hlt : a.expiresAt < acc.expiresAt
      · have hstep : minExpStep (some acc) a = some a := by
          unfold minExpStep
          simp [hlt]
        rw [hstep] at h
        obtain ⟨hmem, hacc, hall⟩ := minExpStep_foldl_spec t a x h
        refine ⟨?_, ?_, ?_⟩
        · cases hmem with
          | inl he => exact Or.inr (he ▸ List.mem_cons_self a t)
          | inr ht => exact Or.inr (List.mem_cons_of_mem a ht)
        · exact Nat.le_trans hacc (Nat.le_of_lt hlt)
        · intro i hi
          cases List.mem_cons.mp hi with
          | inl he => exact he ▸ hacc
          | inr ht => exact hall i ht
      · have hstep : minExpStep (some acc) a = some acc := by
          unfold minExpStep
          simp [hlt]
        rw [hstep] at h
        obtain ⟨hmem, hacc, hall⟩ := minExpStep_foldl_spec t acc x h
        refine ⟨?_, hacc, ?_⟩
        · cases hmem with
          | inl he => exact Or.inl he
          | inr ht => exact Or.inr (List.mem_cons_of_mem a ht)
        · intro i hi
          cases List.mem_cons.mp hi with
          | inl he =>
              exact he ▸ Nat.le_trans hacc (Nat.le_of_not_lt hlt)
          | inr ht => exact hall i ht

/-- The selected invite is a member of the list and minimises `expiresAt`
over it. -/
theorem minExpInvite_mem_min (l : List InviteDoc) (x : InviteDoc)
    (h : minExpInvite l = some x) :
    x ∈ l ∧ ∀ i ∈ l, x.expiresAt ≤ i.expiresAt := by
  cases l with
  | nil => exact absurd h (by simp [minExpInvite])
  | cons a t =>
      have h' : t.foldl minExpStep (some a) = some x := by
        simpa [minExpInvite, List.foldl_cons, minExpStep] using h
      obtain ⟨hmem, hacc, hall⟩ := minExpStep_foldl_spec t a x h'
      refine ⟨?_, ?_⟩
      · cases hmem with
        | inl he => exact he ▸ List.mem_cons_self a t
        | inr ht => exact List.mem_cons_of_mem a ht
      · intro i hi
        cases List.mem_cons.mp hi with
        | inl he => exact he ▸ hacc
        | inr ht => exact hall i ht

/-- A successful `find?` splits the list at the first match: everything
before the hit fails the predicate. -/
theorem find?_eq_some_split {α : Type _} {p : α → Bool} :
    ∀ {l : List α} {a : α}, l.find? p = some a →
      p a = true ∧ ∃ l1 l2, l = l1 ++ a :: l2 ∧ ∀ x ∈ l1, p x = false
  | [], a, h => by simp at h
  | x :: t, a, h => by
      cases hx : p x with
      | true =>
          simp only [List.find?_cons, hx] at h
          injection h with h'
          subst h'
          exact ⟨hx, [], t, rfl, by simp⟩
      | false =>
          simp only [List.find?_cons, hx] at h
          obtain ⟨hpa, l1, l2, hsplit, hfail⟩ := find?_eq_some_split h
          refine ⟨hpa, x :: l1, l2, by rw [List.cons_append, hsplit], ?_⟩
          intro y hy
          cases List.mem_cons.mp hy with
          | inl he => exact he ▸ hx
          | inr ht => exact hfail y ht

/-- If filtering by `p` leaves exactly `[a]`, then searching with any
predicate `q` that is at most as permissive as `p` and holds at `a` finds
`a`. -/
theorem find?_of_filter_singleton {α : Type _} {p q : α → Bool}
    (hpq : ∀ x, q x = true → p x = true) :
    ∀ (l : List α) (a : α), l.filter p = [a] → q a = true →
      l.find? q = some a
  | [], a, hf, _ => by simp at hf
  | x :: t, a, hf, hqa => by
      cases hx : p x with
      | true =>
          simp only [List.filter_cons, hx, if_true] at hf
          injection hf with h1 h2
          subst h1
          simp [List.find?_cons, hqa]
      | false =>
          have hqx : q x = false := by
            cases hq : q x with
            | true => exact absurd (hpq x hq) (by simp [hx])
            | false => rfl
          simp only [List.filter_cons, hx, Bool.false_eq_true, if_false] at hf
          simp only [List.find?_cons, hqx]
          exact find?_of_filter_singleton hpq t a hf hqa

/-- After mapping the status update over the invites, the first invite with
the given id has the new status (provided some invite has that id). -/
theorem inviteStatus_after_update :
    ∀ (l : List InviteDoc) (id s : String),
      l.any (fun i => i.id == id) = true →
      ((l.map (fun i => if i.id == id then { i with status := s } else i)).find?
          (fun i => i.id == id)).map (fun i => i.status) = some s
  | [], _, _, h => by simp at h
  | a :: t, id, s, h => by
      cases ha : a.id == id with
      | true =>
          have ha' : a.id = id := eq_of_beq ha
          simp [List.map_cons, List.find?_cons, ha, ha']
      | false =>
          have ht : t.any (fun i => i.id == id) = true := by
            simpa [List.any_cons, ha] using h
          simp only [List.map_cons, ha, Bool.false_eq_true, if_false,
            List.find?_cons]
          exact inviteStatus_after_update t id s ht

/-- After mapping the memberCount increment over the orgs, the first org
with the given key carries the incremented count. -/
theorem orgCount_after_inc :
    ∀ (l : List (String × OrgDoc)) (k : String) (q : String × OrgDoc),
      l.find? (fun p => p.1 == k) = some q →
      (l.map (fun p =>
          if p.1 == k then (p.1, ⟨p.2.memberCount + 1⟩) else p)).find?
          (fun p => p.1 == k) = some (q.1, ⟨q.2.memberCount + 1⟩)
  | [], _, _, h => by simp at h
  | a :: t, k, q, h => by
      cases ha : a.1 == k with
      | true =>
          simp only [List.find?_cons, ha] at h
          injection h with h'
          subst h'
          have ha' : a.1 = k := eq_of_beq ha
          simp [List.map_cons, List.find?_cons, ha, ha']
      | false =>
          simp only [List.find?_cons, ha] at h
          simp only [List.map_cons, ha, Bool.false_eq_true, if_false,
            List.find?_cons]
          exact orgCount_after_inc t k q h

/-- Setting a user document for a uid that had none makes the lookup find
exactly that document. -/
theorem lookupUser_setUser_fresh (st : Store) (uid : String) (doc : UserDoc)
    (h : lookupUser st uid = none) :
    lookupUser (applyWrite st (.setUser uid doc)) uid = some doc := by
  have hf : st.users.find? (fun p => p.1 == uid) = none := by
    unfold lookupUser at h
    exact Option.map_eq_none'.mp h
  have hany : st.users.any (fun p => p.1 == uid) = false := by
    rw [List.any_eq_false]
    exact List.find?_eq_none.mp hf
  unfold applyWrite lookupUser
  simp only [hany, Bool.false_eq_true, if_false]
  rw [List.find?_append, hf]
  simp

/-- Whether the three materialization writes all pass their Firestore
preconditions does not depend on the server timestamp: it is exactly
"the invite document exists and the org document exists". -/
theorem all_writeOk_materializeOps (st : Store) (now : Nat)
    (rec : AuthUserRecord) (e : String) (inv : InviteDoc) :
    (materializeOps now rec e inv).all (writeOk st) =
      (st.invites.any (fun i => i.id == inv.id)
        && st.orgs.any (fun p => p.1 == inv.orgId)) := by
  simp [materializeOps, writeOk, List.all_cons, Bool.and_assoc]

/-- When `onUserCreated` runs for a fresh identity with a truthy email, a
matching pending invite, and an existing target org, the commit succeeds and
equals the three applied writes. -/
theorem onUserCreated_eq_applied (now : Nat) (rec : AuthUserRecord)
    (st : Store) (e : String) (inv : InviteDoc)
    (hrec : rec.email = some e) (he : e.isEmpty = false)
    (hfresh : lookupUser st rec.uid = none)
    (hfind : pendingInvite e st = some inv)
    (horg : st.orgs.any (fun p => p.1 == inv.orgId) = true) :
    onUserCreated now rec st =
      applyWrite (applyWrite (applyWrite st
        (.setUser rec.uid (newUserDoc now rec e inv)))
        (.updateInviteStatus inv.id "accepted"))
        (.incrementOrgMemberCount inv.orgId) := by
  have hinvmem : inv ∈ st.invites := List.mem_of_find?_eq_some hfind
  have hinvany : st.invites.any (fun i => i.id == inv.id) = true :=
    List.any_eq_true.mpr ⟨inv, hinvmem, by simp⟩
  have hall : (materializeOps now rec e inv).all (writeOk st) = true := by
    rw [all_writeOk_materializeOps]
    simp [hinvany, horg]
  unfold onUserCreated onUserCreatedWithFault
  simp only [materializeOps] at hall
  simp only [hrec, optTruthy, he, Bool.not_false, if_true, Option.getD_some,
    hfresh, Option.isSome_none, Bool.false_eq_true, if_false, hfind,
    commitBatch, materializeOps, List.foldl]
  simp [hall]

/-- Effects of a successful materialization run: the user document lands,
the consumed invite reads accepted, and the org's memberCount went up by
one. -/
theorem onUserCreated_materializes (now : Nat) (rec : AuthUserRecord)
    (st : Store) (e : String) (inv : InviteDoc)
    (hrec : rec.email = some e) (he : e.isEmpty = false)
    (hfresh : lookupUser st rec.uid = none)
    (hfind : pendingInvite e st = some inv)
    (horg : st.orgs.any (fun p => p.1 == inv.orgId) = true) :
    lookupUser (onUserCreated now rec st) rec.uid =
      some (newUserDoc now rec e inv)
    ∧ getInviteStatus (onUserCreated now rec st) inv.id = some "accepted"
    ∧ ∀ m, getOrgMemberCount st inv.orgId = some m →
        getOrgMemberCount (onUserCreated now rec st) inv.orgId =
          some (m + 1) := by
  have hinvmem : inv ∈ st.invites := List.mem_of_find?_eq_some hfind
  have hinvany : st.invites.any (fun i => i.id == inv.id) = true :=
    List.any_eq_true.mpr ⟨inv, hinvmem, by simp⟩
  have heq := onUserCreated_eq_applied now rec st e inv hrec he hfresh hfind
    horg
  refine ⟨?_, ?_, ?_⟩
  · rw [heq]
    exact lookupUser_setUser_fresh st rec.uid (newUserDoc now rec e inv)
      hfresh
  · rw [heq]
    exact inviteStatus_after_update st.invites inv.id "accepted" hinvany
  · intro m hm
    obtain ⟨q, hq, hqm⟩ := Option.map_eq_some'.mp hm
    rw [heq]
    show ((st.orgs.map (fun p =>
        if p.1 == inv.orgId then (p.1, ⟨p.2.memberCount + 1⟩) else p)).find?
        (fun p => p.1 == inv.orgId)).map (fun p => p.2.memberCount) =
      some (m + 1)
    rw [orgCount_after_inc st.orgs inv.orgId q hq]
    simp [hqm]

/-- A falsy event email makes the trigger return without touching the
store, fault or no fault. -/
theorem onUserCreatedWithFault_noop_of_falsy (fault : Bool) (t : Nat)
    (rec : AuthUserRecord) (st : Store) (h : optTruthy rec.email = false) :
    onUserCreatedWithFault fault t rec st = st := by
  unfold onUserCreatedWithFault
  simp [h]

/-- An already-existing user document makes the trigger return without
touching the store (the idempotency guard), fault or no fault. -/
theorem onUserCreatedWithFault_noop_of_existing (fault : Bool) (t : Nat)
    (rec : AuthUserRecord) (st : Store)
    (h : (lookupUser st rec.uid).isSome = true) :
    onUserCreatedWithFault fault t rec st = st := by
  unfold onUserCreatedWithFault
  by_cases hem : optTruthy rec.email = true
  · simp [hem, h]
  · have h2 : optTruthy rec.email = false := by simpa using hem
    simp [h2]

/-! ### Theorems about the decision hooks -/

/-- C9: both decision hooks are read-only — `checkInviteOnCreate` and
`validateOnSignIn` return the store unchanged for every input and store
state; their only effect is the returned claims or the thrown error. -/
theorem decisionHooks_readOnly (now : Nat) (uid email : Option String)
    (st : Store) :
    (checkInviteOnCreate now email st).2 = st
    ∧ (validateOnSignIn uid email st).2 = st := by
  constructor
  · unfold checkInviteOnCreate
    split
    · rfl
    · dsimp only
      split
      · rfl
      · split <;> rfl
  · unfold validateOnSignIn
    split
    · rfl
    · split
      · split
        · rfl
        · split <;> rfl
      · rfl

/-- C10: the outcome of `validateOnSignIn` does not depend on the email's
value — for any two non-empty emails the hook returns identical results, so
the decision depends only on the uid and the stored user document. -/
theorem validateOnSignIn_email_irrelevant (uid : Option String) (st : Store)
    (e1 e2 : String) (h1 : e1.isEmpty = false) (h2 : e2.isEmpty = false) :
    validateOnSignIn uid (some e1) st = validateOnSignIn uid (some e2) st := by
  unfold validateOnSignIn
  simp [optTruthy, h1, h2]

/-- C10 witness: two distinct emails produce the same outcome at a concrete
store. -/
theorem validateOnSignIn_email_irrelevant_witness :
    validateOnSignIn (some "u1") (some "a@x.com") ⟨[], [], []⟩
      = validateOnSignIn (some "u1") (some "b@y.org") ⟨[], [], []⟩ :=
  validateOnSignIn_email_irrelevant (some "u1") ⟨[], [], []⟩
    "a@x.com" "b@y.org" (by decide) (by decide)

/-- C4: `validateOnSignIn` keeps "no user document" and "user document with
an empty/undefined role" distinct: the former approves with empty claims and
returns the store unchanged, the latter rejects with the deactivation
`permission-denied` error. -/
theorem validateOnSignIn_absent_vs_deactivated (uid email : Option String)
    (st : Store) (hu : optTruthy uid = true) (he : optTruthy email = true) :
    (lookupUser st (uid.getD "") = none →
      validateOnSignIn uid email st = (.ok .emptyClaims, st))
    ∧ (∀ userData, lookupUser st (uid.getD "") = some userData →
        optTruthy userData.role = false →
        validateOnSignIn uid email st =
          (.error ⟨"permission-denied",
            "Your account has been deactivated. Contact an administrator."⟩,
            st)) := by
  constructor
  · intro h
    unfold validateOnSignIn
    simp only [hu, he, Bool.and_self, Bool.not_true, h]
    simp
  · intro userData h hrole
    unfold validateOnSignIn
    cases hr : userData.role with
    | none =>
        simp only [hu, he, Bool.and_self, Bool.not_true, h]
        simp [hr, optTruthy]
    | some s =>
        have hs : s.isEmpty = true := by
          have := hrole
          simp only [optTruthy, hr, Bool.not_eq_false'] at this
          exact this
        have hbad : ((some s : Option String) == some "superAdmin") = false := by
          apply beq_eq_false_iff_ne.mpr
          intro hEq
          injection hEq with h2
          subst h2
          exact absurd hs (by decide)
        simp only [hu, he, Bool.and_self, Bool.not_true, h]
        simp [hr, hbad, optTruthy, hs]

/-- C4 witness: at a concrete store, an absent record approves with empty
claims while a record whose role is undefined is rejected as deactivated. -/
theorem validateOnSignIn_absent_vs_deactivated_witness :
    validateOnSignIn (some "u1") (some "a@x.com") ⟨[], [], []⟩
      = (.ok .emptyClaims, ⟨[], [], []⟩)
    ∧ validateOnSignIn (some "u9") (some "a@x.com")
        ⟨[("u9", ⟨"a@x.com", "", "", some "org1", none, 0, 0⟩)], [], []⟩
      = (.error ⟨"permission-denied",
          "Your account has been deactivated. Contact an administrator."⟩,
          ⟨[("u9", ⟨"a@x.com", "", "", some "org1", none, 0, 0⟩)], [], []⟩) :=
  ⟨(validateOnSignIn_absent_vs_deactivated (some "u1") (some "a@x.com")
      ⟨[], [], []⟩ (by decide) (by decide)).1 (by decide),
   (validateOnSignIn_absent_vs_deactivated (some "u9") (some "a@x.com")
      ⟨[("u9", ⟨"a@x.com", "", "", some "org1", none, 0, 0⟩)], [], []⟩
      (by decide) (by decide)).2
      ⟨"a@x.com", "", "", some "org1", none, 0, 0⟩ (by decide) (by decide)⟩

/-- C1: when no user record with role superAdmin exists for the email and
every pending invite for it is expired (`expiresAt ≤ now`),
`checkInviteOnCreate` rejects with the `permission-denied` error naming the
missing invitation. -/
theorem checkInviteOnCreate_rejects_without_valid_invite (now : Nat)
    (e : String) (st : Store) (he : e.isEmpty = false)
    (hsa : ∀ p ∈ st.users, ¬(p.2.email = e ∧ p.2.role = some "superAdmin"))
    (hinv : ∀ i ∈ st.invites, i.email = e → i.status = "pending" →
      i.expiresAt ≤ now) :
    (checkInviteOnCreate now (some e) st).1 =
      .error ⟨"permission-denied",
        "No valid invitation found for this email."⟩ := by
  have h1 : hasSuperAdminUser st e = false := by
    simp only [hasSuperAdminUser, List.any_eq_false]
    intro p hp
    simp only [Bool.and_eq_true, beq_iff_eq, not_and]
    intro ha hb
    exact hsa p hp ⟨ha, hb⟩
  have h2 : pendingUnexpiredInvite now e st = none := by
    have hnil : st.invites.filter (fun i =>
        i.email == e && i.status == "pending" && decide (now < i.expiresAt))
        = [] := by
      rw [List.filter_eq_nil_iff]
      intro i hi
      simp only [Bool.and_eq_true, beq_iff_eq, decide_eq_true_eq, not_and]
      rintro ⟨ha, hb⟩ hc
      exact absurd hc (Nat.not_lt.2 (hinv i hi ha hb))
    unfold pendingUnexpiredInvite
    rw [hnil]
    rfl
  unfold checkInviteOnCreate
  simp [optTruthy, he, h1, h2]

/-- C1 witness: a store holding only an invite that is still pending but
already expired is rejected. -/
theorem checkInviteOnCreate_rejects_witness :
    (checkInviteOnCreate 10 (some "b@x.com")
        ⟨[], [⟨"i1", "b@x.com", "org1", "admin", "pending", 1, 5⟩], []⟩).1 =
      .error ⟨"permission-denied",
        "No valid invitation found for this email."⟩ :=
  checkInviteOnCreate_rejects_without_valid_invite 10 "b@x.com"
    ⟨[], [⟨"i1", "b@x.com", "org1", "admin", "pending", 1, 5⟩], []⟩
    (by decide) (by decide) (by decide)

/-- C2: when some user record has this email and role superAdmin,
`checkInviteOnCreate` approves with `{superAdmin: true}`, whatever invites
exist — the superAdmin query is decided before the invite query is ever
consulted. -/
theorem checkInviteOnCreate_superAdmin_first (now : Nat) (e : String)
    (st : Store) (he : e.isEmpty = false) (p : String × UserDoc)
    (hp : p ∈ st.users) (hemail : p.2.email = e)
    (hrole : p.2.role = some "superAdmin") :
    (checkInviteOnCreate now (some e) st).1 = .ok .superAdminClaims := by
  have h1 : hasSuperAdminUser st e = true := by
    simp only [hasSuperAdminUser, List.any_eq_true]
    exact ⟨p, hp, by simp [hemail, hrole]⟩
  unfold checkInviteOnCreate
  simp [optTruthy, he, h1]

/-- C2 witness: a superAdmin user record wins even while a pending unexpired
invite for the same email sits in the store. -/
theorem checkInviteOnCreate_superAdmin_first_witness :
    (checkInviteOnCreate 10 (some "s@x.com")
        ⟨[("u0", ⟨"s@x.com", "", "", none, some "superAdmin", 0, 0⟩)],
          [⟨"i1", "s@x.com", "org1", "admin", "pending", 1, 99⟩], []⟩).1 =
      .ok .superAdminClaims :=
  checkInviteOnCreate_superAdmin_first 10 "s@x.com"
    ⟨[("u0", ⟨"s@x.com", "", "", none, some "superAdmin", 0, 0⟩)],
      [⟨"i1", "s@x.com", "org1", "admin", "pending", 1, 99⟩], []⟩
    (by decide) ("u0", ⟨"s@x.com", "", "", none, some "superAdmin", 0, 0⟩)
    (by decide) (by decide) (by decide)

/-- C5: `onUserCreated` is idempotent — a second invocation for the same
identity, at any later server time, leaves the store exactly as the first
invocation left it (the second run observes the user document the first one
created, or repeats the first run's no-op), so the record creation, the
invite transition and the memberCount increment each happen at most once. -/
theorem onUserCreated_idempotent (t1 t2 : Nat) (rec : AuthUserRecord)
    (st : Store) :
    onUserCreated t2 rec (onUserCreated t1 rec st) =
      onUserCreated t1 rec st := by
  by_cases hem : optTruthy rec.email = true
  · obtain ⟨e, hrec, he⟩ : ∃ e, rec.email = some e ∧ e.isEmpty = false := by
      cases hr : rec.email with
      | none => rw [hr] at hem; exact absurd hem (by simp [optTruthy])
      | some s =>
          refine ⟨s, rfl, ?_⟩
          rw [hr] at hem
          simpa [optTruthy] using hem
    by_cases hfr : (lookupUser st rec.uid).isSome = true
    · have h1 : onUserCreated t1 rec st = st :=
        onUserCreatedWithFault_noop_of_existing false t1 rec st hfr
      rw [h1]
      exact onUserCreatedWithFault_noop_of_existing false t2 rec st hfr
    · have hfresh : lookupUser st rec.uid = none := by
        cases hl : lookupUser st rec.uid with
        | none => rfl
        | some _ => rw [hl] at hfr; exact absurd rfl hfr
      cases hfind : pendingInvite e st with
      | none =>
          have h1 : onUserCreated t1 rec st = st := by
            unfold onUserCreated onUserCreatedWithFault
            simp [hrec, optTruthy, he, hfresh, hfind]
          rw [h1]
          unfold onUserCreated onUserCreatedWithFault
          simp [hrec, optTruthy, he, hfresh, hfind]
      | some inv =>
          by_cases horg : st.orgs.any (fun p => p.1 == inv.orgId) = true
          · have hmat := onUserCreated_materializes t1 rec st e inv hrec he
              hfresh hfind horg
            have hs : (lookupUser (onUserCreated t1 rec st) rec.uid).isSome
                = true := by
              rw [hmat.1]; rfl
            exact onUserCreatedWithFault_noop_of_existing false t2 rec
              (onUserCreated t1 rec st) hs
          · have hofail : st.orgs.any (fun p => p.1 == inv.orgId) = false :=
              Bool.eq_false_iff.mpr horg
            have hcb : ∀ t', commitBatch st (materializeOps t' rec e inv)
                = st := by
              intro t'
              unfold commitBatch
              rw [all_writeOk_materializeOps, hofail]
              simp
            have h1 : onUserCreated t1 rec st = st := by
              unfold onUserCreated onUserCreatedWithFault
              simp [hrec, optTruthy, he, hfresh, hfind, hcb t1]
            rw [h1]
            unfold onUserCreated onUserCreatedWithFault
            simp [hrec, optTruthy, he, hfresh, hfind, hcb t2]
  · have h2 : optTruthy rec.email = false := by simpa using hem
    have h1 : onUserCreated t1 rec st = st :=
      onUserCreatedWithFault_noop_of_falsy false t1 rec st h2
    rw [h1]
    exact onUserCreatedWithFault_noop_of_falsy false t2 rec st h2

/-- C6: the materialization is all-or-nothing — for every run of
`onUserCreated`, including one with a fault injected after the writes are
staged but before the batch commits, the resulting store either is the
original store untouched or shows all three mutations (user document
created, invite accepted, memberCount incremented by one); no partial
subset is observable. -/
theorem onUserCreated_atomic (fault : Bool) (t : Nat) (rec : AuthUserRecord)
    (st : Store) :
    onUserCreatedWithFault fault t rec st = st
    ∨ ∃ e inv, rec.email = some e ∧ pendingInvite e st = some inv
        ∧ lookupUser (onUserCreatedWithFault fault t rec st) rec.uid =
            some (newUserDoc t rec e inv)
        ∧ getInviteStatus (onUserCreatedWithFault fault t rec st) inv.id =
            some "accepted"
        ∧ ∃ m, getOrgMemberCount st inv.orgId = some m
            ∧ getOrgMemberCount (onUserCreatedWithFault fault t rec st)
                inv.orgId = some (m + 1) := by
  by_cases hem : optTruthy rec.email = true
  · obtain ⟨e, hrec, he⟩ : ∃ e, rec.email = some e ∧ e.isEmpty = false := by
      cases hr : rec.email with
      | none => rw [hr] at hem; exact absurd hem (by simp [optTruthy])
      | some s =>
          refine ⟨s, rfl, ?_⟩
          rw [hr] at hem
          simpa [optTruthy] using hem
    by_cases hfr : (lookupUser st rec.uid).isSome = true
    · exact Or.inl (onUserCreatedWithFault_noop_of_existing fault t rec st hfr)
    · have hfresh : lookupUser st rec.uid = none := by
        cases hl : lookupUser st rec.uid with
        | none => rfl
        | some _ => rw [hl] at hfr; exact absurd rfl hfr
      cases hfind : pendingInvite e st with
      | none =>
          left
          unfold onUserCreatedWithFault
          simp [hrec, optTruthy, he, hfresh, hfind]
      | some inv =>
          cases fault with
          | true =>
              left
              unfold onUserCreatedWithFault
              simp [hrec, optTruthy, he, hfresh, hfind]
          | false =>
              by_cases horg : st.orgs.any (fun p => p.1 == inv.orgId) = true
              · right
                have hmat := onUserCreated_materializes t rec st e inv hrec
                  he hfresh hfind horg
                cases hq : st.orgs.find? (fun p => p.1 == inv.orgId) with
                | none =>
                    obtain ⟨x, hx, hpx⟩ := List.any_eq_true.mp horg
                    exact absurd hpx (List.find?_eq_none.mp hq x hx)
                | some q =>
                    refine ⟨e, inv, hrec, hfind, hmat.1, hmat.2.1,
                      q.2.memberCount, ?_, ?_⟩
                    · unfold getOrgMemberCount; rw [hq]; rfl
                    · exact hmat.2.2 q.2.memberCount
                        (by unfold getOrgMemberCount; rw [hq]; rfl)
              · left
                have hofail : st.orgs.any (fun p => p.1 == inv.orgId)
                    = false := Bool.eq_false_iff.mpr horg
                have hcb : commitBatch st (materializeOps t rec e inv)
                    = st := by
                  unfold commitBatch
                  rw [all_writeOk_materializeOps, hofail]
                  simp
                unfold onUserCreatedWithFault
                simp [hrec, optTruthy, he, hfresh, hfind, hcb]
  · have h2 : optTruthy rec.email = false := by simpa using hem
    exact Or.inl (onUserCreatedWithFault_noop_of_falsy fault t rec st h2)

/-- No user record with this email and role superAdmin means the superAdmin
query comes back empty. -/
theorem hasSuperAdminUser_eq_false (st : Store) (e : String)
    (hsa : ∀ p ∈ st.users, ¬(p.2.email = e ∧ p.2.role = some "superAdmin")) :
    hasSuperAdminUser st e = false := by
  simp only [hasSuperAdminUser, List.any_eq_false]
  intro p hp
  simp only [Bool.and_eq_true, beq_iff_eq, not_and]
  intro ha hb
  exact hsa p hp ⟨ha, hb⟩

/-- C3: with exactly one pending invite for the email, unexpired at
validation time, no superAdmin record, a fresh uid, and an existing target
org: `checkInviteOnCreate` approves with the invite's role and orgId, and
`onUserCreated` then creates the user record with exactly those fields (plus
email, displayName-or-empty, photoURL-or-empty, timestamps), flips the
invite to accepted, and increments the org's memberCount by one. -/
theorem invite_create_then_materialize (now tNow : Nat) (e : String)
    (st : Store) (rec : AuthUserRecord) (inv : InviteDoc) (org : OrgDoc)
    (he : e.isEmpty = false) (hrec : rec.email = some e)
    (hsa : ∀ p ∈ st.users, ¬(p.2.email = e ∧ p.2.role = some "superAdmin"))
    (honly : st.invites.filter
      (fun i => i.email == e && i.status == "pending") = [inv])
    (hexp : now < inv.expiresAt)
    (hfresh : lookupUser st rec.uid = none)
    (horgfind : st.orgs.find? (fun p => p.1 == inv.orgId) =
      some (inv.orgId, org)) :
    (checkInviteOnCreate now (some e) st).1 =
      .ok (.memberClaims inv.role inv.orgId)
    ∧ lookupUser (onUserCreated tNow rec st) rec.uid =
        some ⟨e, rec.displayName.getD "", rec.photoURL.getD "",
          some inv.orgId, some inv.role, tNow, tNow⟩
    ∧ getInviteStatus (onUserCreated tNow rec st) inv.id = some "accepted"
    ∧ getOrgMemberCount (onUserCreated tNow rec st) inv.orgId =
        some (org.memberCount + 1) := by
  have hmemf : inv ∈ st.invites.filter
      (fun i => i.email == e && i.status == "pending") := by
    rw [honly]
    exact List.mem_singleton.mpr rfl
  have hinvp : (inv.email == e && inv.status == "pending") = true :=
    (List.mem_filter.mp hmemf).2
  have hfindP : pendingInvite e st = some inv :=
    find?_of_filter_singleton (fun x hx => hx) st.invites inv honly hinvp
  have hfindQ : pendingUnexpiredInvite now e st = some inv := by
    have hq : st.invites.filter (fun i =>
        i.email == e && i.status == "pending" && decide (now < i.expiresAt))
        = [inv] := by
      refine filter_of_filter_singleton ?_ st.invites inv honly ?_
      · intro x hx
        rw [Bool.and_eq_true] at hx
        exact hx.1
      · simp [hinvp, hexp]
    unfold pendingUnexpiredInvite
    rw [hq]
    rfl
  have horgany : st.orgs.any (fun p => p.1 == inv.orgId) = true :=
    List.any_eq_true.mpr
      ⟨(inv.orgId, org), List.mem_of_find?_eq_some horgfind, by simp⟩
  have hmat := onUserCreated_materializes tNow rec st e inv hrec he hfresh
    hfindP horgany
  have hsa' : hasSuperAdminUser st e = false :=
    hasSuperAdminUser_eq_false st e hsa
  refine ⟨?_, hmat.1, hmat.2.1, ?_⟩
  · unfold checkInviteOnCreate
    simp [optTruthy, he, hsa', hfindQ]
  · exact hmat.2.2 org.memberCount
      (by unfold getOrgMemberCount; rw [horgfind]; rfl)

/-- C3 witness: the spec's scenario — invite
`{email: a@x.com, role: admin, orgId: org1, status: pending, expiresAt: 100}`
at now = 50, then `afterCreate` for uid1 at time 60. -/
theorem invite_create_then_materialize_witness :
    (checkInviteOnCreate 50 (some "a@x.com")
        ⟨[], [⟨"i1", "a@x.com", "org1", "admin", "pending", 1, 100⟩],
          [("org1", ⟨3⟩)]⟩).1 = .ok (.memberClaims "admin" "org1")
    ∧ lookupUser (onUserCreated 60 ⟨"uid1", some "a@x.com", none, none⟩
        ⟨[], [⟨"i1", "a@x.com", "org1", "admin", "pending", 1, 100⟩],
          [("org1", ⟨3⟩)]⟩) "uid1" =
        some ⟨"a@x.com", "", "", some "org1", some "admin", 60, 60⟩
    ∧ getInviteStatus (onUserCreated 60 ⟨"uid1", some "a@x.com", none, none⟩
        ⟨[], [⟨"i1", "a@x.com", "org1", "admin", "pending", 1, 100⟩],
          [("org1", ⟨3⟩)]⟩) "i1" = some "accepted"
    ∧ getOrgMemberCount (onUserCreated 60 ⟨"uid1", some "a@x.com", none, none⟩
        ⟨[], [⟨"i1", "a@x.com", "org1", "admin", "pending", 1, 100⟩],
          [("org1", ⟨3⟩)]⟩) "org1" = some 4 :=
  invite_create_then_materialize 50 60 "a@x.com"
    ⟨[], [⟨"i1", "a@x.com", "org1", "admin", "pending", 1, 100⟩],
      [("org1", ⟨3⟩)]⟩
    ⟨"uid1", some "a@x.com", none, none⟩
    ⟨"i1", "a@x.com", "org1", "admin", "pending", 1, 100⟩ ⟨3⟩
    (by decide) rfl (by decide) (by decide) (by decide) rfl (by decide)

/-- C7: `onUserCreated` never re-checks expiry — its invite query matches
on email and pending status only, so an invite already expired at run time
(`expiresAt ≤ t`) still materializes: record created, invite accepted,
memberCount incremented. -/
theorem onUserCreated_ignores_expiry (t : Nat) (rec : AuthUserRecord)
    (st : Store) (e : String) (inv : InviteDoc) (org : OrgDoc)
    (hrec : rec.email = some e) (he : e.isEmpty = false)
    (hfresh : lookupUser st rec.uid = none)
    (hfind : pendingInvite e st = some inv)
    (_hexpired : inv.expiresAt ≤ t)
    (horgfind : st.orgs.find? (fun p => p.1 == inv.orgId) =
      some (inv.orgId, org)) :
    lookupUser (onUserCreated t rec st) rec.uid =
      some ⟨e, rec.displayName.getD "", rec.photoURL.getD "",
        some inv.orgId, some inv.role, t, t⟩
    ∧ getInviteStatus (onUserCreated t rec st) inv.id = some "accepted"
    ∧ getOrgMemberCount (onUserCreated t rec st) inv.orgId =
        some (org.memberCount + 1) := by
  have horgany : st.orgs.any (fun p => p.1 == inv.orgId) = true :=
    List.any_eq_true.mpr
      ⟨(inv.orgId, org), List.mem_of_find?_eq_some horgfind, by simp⟩
  have hmat := onUserCreated_materializes t rec st e inv hrec he hfresh
    hfind horgany
  exact ⟨hmat.1, hmat.2.1, hmat.2.2 org.memberCount
    (by unfold getOrgMemberCount; rw [horgfind]; rfl)⟩

/-- C7 witness: an invite that expired at time 5 still materializes when the
trigger runs at time 10. -/
theorem onUserCreated_ignores_expiry_witness :
    lookupUser (onUserCreated 10 ⟨"uid1", some "a@x.com", none, none⟩
        ⟨[], [⟨"i1", "a@x.com", "org1", "admin", "pending", 1, 5⟩],
          [("org1", ⟨3⟩)]⟩) "uid1" =
      some ⟨"a@x.com", "", "", some "org1", some "admin", 10, 10⟩
    ∧ getInviteStatus (onUserCreated 10 ⟨"uid1", some "a@x.com", none, none⟩
        ⟨[], [⟨"i1", "a@x.com", "org1", "admin", "pending", 1, 5⟩],
          [("org1", ⟨3⟩)]⟩) "i1" = some "accepted"
    ∧ getOrgMemberCount (onUserCreated 10 ⟨"uid1", some "a@x.com", none, none⟩
        ⟨[], [⟨"i1", "a@x.com", "org1", "admin", "pending", 1, 5⟩],
          [("org1", ⟨3⟩)]⟩) "org1" = some 4 :=
  onUserCreated_ignores_expiry 10 ⟨"uid1", some "a@x.com", none, none⟩
    ⟨[], [⟨"i1", "a@x.com", "org1", "admin", "pending", 1, 5⟩],
      [("org1", ⟨3⟩)]⟩ "a@x.com"
    ⟨"i1", "a@x.com", "org1", "admin", "pending", 1, 5⟩ ⟨3⟩
    rfl (by decide) rfl (by decide) (by decide) rfl

/-- A store with three pending invites for `a@x.com` in document order:
`i1` (createdAt 10, already expired at time 50), `i2` (createdAt 20,
unexpired), `i3` (createdAt 5, unexpired). -/
def pickStore : Store :=
  { users := []
  , invites :=
      [ ⟨"i1", "a@x.com", "org1", "viewer", "pending", 10, 0⟩
      , ⟨"i2", "a@x.com", "org2", "admin", "pending", 20, 100⟩
      , ⟨"i3", "a@x.com", "org3", "user", "pending", 5, 100⟩ ]
  , orgs := [("org1", ⟨3⟩), ("org2", ⟨7⟩), ("org3", ⟨1⟩)] }

/-- The fresh identity signing up as `a@x.com`. -/
def pickRec : AuthUserRecord := ⟨"u1", some "a@x.com", none, none⟩

/-- C8 counterexample: neither hook picks the earliest-createdAt invite, and
the two hooks do not select the same invite.  `checkInviteOnCreate` returns
the claims of `i2` (createdAt 20) although the matching invite `i3` has
createdAt 5; `onUserCreated` consumes `i1` (the expired invite, first in
document order) and leaves `i2` pending. -/
theorem invitePick_counterexample :
    pendingUnexpiredInvite 50 "a@x.com" pickStore =
      some ⟨"i2", "a@x.com", "org2", "admin", "pending", 20, 100⟩
    ∧ pendingInvite "a@x.com" pickStore =
      some ⟨"i1", "a@x.com", "org1", "viewer", "pending", 10, 0⟩
    ∧ (∃ i ∈ pickStore.invites, i.email = "a@x.com" ∧ i.status = "pending"
        ∧ 50 < i.expiresAt ∧ i.createdAt < 20)
    ∧ (checkInviteOnCreate 50 (some "a@x.com") pickStore).1 =
        .ok (.memberClaims "admin" "org2")
    ∧ getInviteStatus (onUserCreated 60 pickRec pickStore) "i1" =
        some "accepted"
    ∧ getInviteStatus (onUserCreated 60 pickRec pickStore) "i2" =
        some "pending" := by decide

/-- C8 amended: each hook picks one invite deterministically, ignores the
rest, and does not error — but not the earliest-createdAt one, and not
necessarily the same one: `checkInviteOnCreate`'s range query yields a
matching (pending, unexpired) invite minimising `expiresAt`, whose claims
it returns, while `onUserCreated`'s equality-only query yields the first
pending invite in document order. -/
theorem invitePick_deterministic_per_query (now : Nat) (e : String)
    (st : Store) (inv : InviteDoc) (he : e.isEmpty = false)
    (hsa : hasSuperAdminUser st e = false)
    (hfind : pendingUnexpiredInvite now e st = some inv) :
    (checkInviteOnCreate now (some e) st).1 =
      .ok (.memberClaims inv.role inv.orgId)
    ∧ (inv.email = e ∧ inv.status = "pending" ∧ now < inv.expiresAt)
    ∧ (∀ i ∈ st.invites, i.email = e → i.status = "pending" →
        now < i.expiresAt → inv.expiresAt ≤ i.expiresAt)
    ∧ ∀ inv2, pendingInvite e st = some inv2 →
        (inv2.email = e ∧ inv2.status = "pending")
        ∧ ∃ l1 l2, st.invites = l1 ++ inv2 :: l2
            ∧ ∀ j ∈ l1, ¬(j.email = e ∧ j.status = "pending") := by
  have hfind' : minExpInvite (st.invites.filter (fun i =>
      i.email == e && i.status == "pending" && decide (now < i.expiresAt)))
      = some inv := hfind
  obtain ⟨hmemf, hmin⟩ := minExpInvite_mem_min _ inv hfind'
  have hq := (List.mem_filter.mp hmemf).2
  simp only [Bool.and_eq_true, decide_eq_true_eq] at hq
  refine ⟨?_, ⟨eq_of_beq hq.1.1, eq_of_beq hq.1.2, hq.2⟩, ?_, ?_⟩
  · unfold checkInviteOnCreate
    simp [optTruthy, he, hsa, hfind]
  · intro i hi hie his hilt
    apply hmin
    rw [List.mem_filter]
    refine ⟨hi, ?_⟩
    simp [hie, his, hilt]
  · intro inv2 h2
    have h2' : st.invites.find?
        (fun i => i.email == e && i.status == "pending") = some inv2 := h2
    obtain ⟨hp2, l1, l2, hsplit, hfail⟩ := find?_eq_some_split h2'
    rw [Bool.and_eq_true] at hp2
    refine ⟨⟨eq_of_beq hp2.1, eq_of_beq hp2.2⟩, l1, l2, hsplit, ?_⟩
    rintro j hj ⟨hje, hjs⟩
    have hjf := hfail j hj
    simp [hje, hjs] at hjf

/-- C8 amended witness: two pending unexpired invites in document order
"a" (expiresAt 300) then "b" (expiresAt 200) — `checkInviteOnCreate`
returns the claims of "b", the minimal-expiresAt match, while
`onUserCreated`'s query selects "a", the first in document order, so the
hooks diverge even with no expired invite involved. -/
theorem invitePick_deterministic_per_query_witness :
    (checkInviteOnCreate 50 (some "a@x.com")
        ⟨[], [⟨"a", "a@x.com", "org1", "viewer", "pending", 30, 300⟩,
          ⟨"b", "a@x.com", "org2", "admin", "pending", 10, 200⟩], []⟩).1 =
      .ok (.memberClaims "admin" "org2")
    ∧ pendingInvite "a@x.com"
        ⟨[], [⟨"a", "a@x.com", "org1", "viewer", "pending", 30, 300⟩,
          ⟨"b", "a@x.com", "org2", "admin", "pending", 10, 200⟩], []⟩ =
      some ⟨"a", "a@x.com", "org1", "viewer", "pending", 30, 300⟩ :=
  have h := invitePick_deterministic_per_query 50 "a@x.com"
    ⟨[], [⟨"a", "a@x.com", "org1", "viewer", "pending", 30, 300⟩,
      ⟨"b", "a@x.com", "org2", "admin", "pending", 10, 200⟩], []⟩
    ⟨"b", "a@x.com", "org2", "admin", "pending", 10, 200⟩
    (by decide) (by decide) (by decide)
  ⟨h.1, by decide⟩

end FirebaseAuthApp
